import Mathlib

/-!
Verification of the prompt-chaining batch system (src/main.py, src/core/*).

Python strings are modelled as `List Char`; the filesystem as an
association list from paths to contents.  Each definition below embeds one
function of the source, keeping its name where Lean allows it.
-/

namespace PromptChain

/-- A Python string, modelled as its list of characters. -/
abbrev PStr := List Char

/-- The filesystem: an association list from paths to file contents.
A path is "existing" when it has a binding. -/
abbrev Fs := List (PStr × PStr)

/-- Model of Python whitespace for str.strip(): the ASCII whitespace
characters space, tab, newline, vertical tab, form feed, carriage return.
(Python also strips some rare Unicode spaces; this fragment covers the
strings considered here.) -/
def pyIsSpace (c : Char) : Bool :=
  c = ' ' || c = '\t' || c = '\n' || c.toNat = 11 || c.toNat = 12 || c.toNat = 13

/-- Python str.strip(): drop leading and trailing whitespace. -/
def pyStrip (s : PStr) : PStr :=
  ((s.dropWhile pyIsSpace).reverse.dropWhile pyIsSpace).reverse

/-- Model of Python str.lower() character-wise: ASCII case folding.
(Python lowercases the full Unicode tables; the suffixes compared here,
".txt" and ".md", are ASCII, so the ASCII fragment suffices.) -/
def pyLowerChar (c : Char) : Char :=
  if 'A' ≤ c && c ≤ 'Z' then Char.ofNat (c.toNat + 32) else c

/-- Python str.lower() on a whole string. -/
def pyLower (s : PStr) : PStr := s.map pyLowerChar

/-- Model of Python str.isalnum() on one character: the ASCII
alphanumerics together with the Latin-1 letter block U+00C0..U+00FF
(excluding the two operators U+00D7 and U+00F7).  Python's predicate is
Unicode-wide; this fragment is faithful on every character appearing in
the inputs considered here. -/
def pyIsAlnum (c : Char) : Bool :=
  c.isAlphanum ||
    (0xC0 ≤ c.toNat && c.toNat ≤ 0xFF && c.toNat ≠ 0xD7 && c.toNat ≠ 0xF7)

/-- Truthiness of an optional Python string: None and "" are falsy. -/
def pyTruthy : Option PStr → Bool
  | none => false
  | some s => !s.isEmpty

/-- Lexicographic strict order on strings by code point, as Python
compares str values. -/
def pyStrLt : PStr → PStr → Bool
  | [], [] => false
  | [], _ :: _ => true
  | _ :: _, [] => false
  | a :: as, b :: bs =>
    if a.toNat < b.toNat then true
    else if b.toNat < a.toNat then false
    else pyStrLt as bs

/-- Insert into an ascendingly sorted list, before the first element not
below the inserted one. -/
def insertSorted (x : PStr) : List PStr → List PStr
  | [] => [x]
  | y :: ys => if pyStrLt y x then y :: insertSorted x ys else x :: y :: ys

/-- Python sorted() on a list of strings: insertion sort by code-point
lexicographic order. -/
def pySorted : List PStr → List PStr
  | [] => []
  | x :: xs => insertSorted x (pySorted xs)

/-- Split a list at the LAST occurrence of c: returns (before, from-c-on)
with the second component starting with c, or none when c is absent. -/
def splitAtLast (c : Char) : PStr → Option (PStr × PStr)
  | [] => none
  | x :: xs =>
    match splitAtLast c xs with
    | some (pre, suf) => some (x :: pre, suf)
    | none => if x = c then some ([], x :: xs) else none

/-- os.path.basename on POSIX: everything after the last slash. -/
def osBasename (p : PStr) : PStr :=
  match splitAtLast '/' p with
  | some (_, _ :: b) => b
  | _ => p

/-- os.path.splitext (CPython genericpath._splitext with sep "/"): split
off the extension at the last dot of the basename, where the leading dots
of the basename never count as an extension separator. -/
def splitext (p : PStr) : PStr × PStr :=
  let db : PStr × PStr :=
    match splitAtLast '/' p with
    | some (pre, _ :: base) => (pre ++ ['/'], base)
    | _ => ([], p)
  let dots := db.2.takeWhile (fun c => c = '.')
  let rest := db.2.dropWhile (fun c => c = '.')
  match splitAtLast '.' rest with
  | some (stem, dotext) => (db.1 ++ dots ++ stem, dotext)
  | none => (p, [])

/-- os.path.join on POSIX for two components. -/
def osJoin (d f : PStr) : PStr :=
  if f.head? = some '/' then f
  else if d = [] || d.getLast? = some '/' then d ++ f
  else d ++ '/' :: f

/-- Look a path up in the filesystem. -/
def fsLookup : Fs → PStr → Option PStr
  | [], _ => none
  | (p, c) :: rest, q => if p = q then some c else fsLookup rest q

/-- os.path.exists in the model: the path has a binding. -/
def fsExists (fs : Fs) (p : PStr) : Bool := (fsLookup fs p).isSome

/-- The decimal digit characters. -/
def digitChar (n : Nat) : Char :=
  match n with
  | 0 => '0' | 1 => '1' | 2 => '2' | 3 => '3' | 4 => '4'
  | 5 => '5' | 6 => '6' | 7 => '7' | 8 => '8' | _ => '9'

/-- Accumulator loop of the decimal rendering of a Nat, fuelled so that
it is structurally recursive; any fuel above the number suffices (proved
below), and the out-of-fuel branch is never reached. -/
def natDigitsGo (fuel n : Nat) (acc : PStr) : PStr :=
  match fuel with
  | 0 => acc
  | fuel + 1 =>
    if n < 10 then digitChar n :: acc
    else natDigitsGo fuel (n / 10) (digitChar (n % 10) :: acc)

/-- Decimal rendering of a Nat, as Python str(n) / an f-string renders a
nonnegative int. -/
def natDigits (n : Nat) : PStr := natDigitsGo (n + 1) n []

/-! ## core/get_inputs.py -/

/-- A directory listing entry: the file name as os.listdir yields it, and
whether os.path.isfile holds of the joined path. -/
abbrev DirEntry := PStr × Bool

/-- Python str.endswith for one pattern: the last pat.length characters
are exactly pat. -/
def pyEndsWith (s pat : PStr) : Bool :=
  decide (pat.length ≤ s.length) && decide (s.drop (s.length - pat.length) = pat)

/-- Does the lowercased name end in ".txt" or ".md"?  Embeds the test
`f.lower().endswith((".txt", ".md"))` of get_context_files. -/
def endsTxtMd (lowered : PStr) : Bool :=
  pyEndsWith lowered (".txt").data || pyEndsWith lowered (".md").data

/-- The inner helper get_txt_md_files of get_context_files: the sorted
joined paths of the regular files in the directory whose lowercased name
ends in ".txt" or ".md". -/
def get_txt_md_files (directory : PStr) (entries : List DirEntry) : List PStr :=
  pySorted ((entries.filter
      (fun e => e.2 && endsTxtMd (pyLower e.1))).map
      (fun e => osJoin directory e.1))

/-- get_context_files: list both directories, then raise ValueError (here
the error branch of Except) when either list is empty. -/
def get_context_files (var_a_dir : PStr) (entriesA : List DirEntry)
    (var_b_dir : PStr) (entriesB : List DirEntry) :
    Except PStr (List PStr × List PStr) :=
  let var_a_files := get_txt_md_files var_a_dir entriesA
  let var_b_files := get_txt_md_files var_b_dir entriesB
  if var_a_files.isEmpty then
    .error (("No .txt or .md files found in Variable A directory: ").data
      ++ var_a_dir)
  else if var_b_files.isEmpty then
    .error (("No .txt or .md files found in Variable B directory: ").data
      ++ var_b_dir)
  else .ok (var_a_files, var_b_files)

/-! ## core/prompt_combiner.py -/

/-- read_file_content: open the file and strip its text; an unreadable
(absent) path is the raised OSError, the error branch here. -/
def read_file_content (fs : Fs) (file_path : PStr) : Except PStr PStr :=
  match fsLookup fs file_path with
  | some content => .ok (pyStrip content)
  | none => .error (("No such file or directory: ").data ++ file_path)

/-- extract_filename: "NONE" for a falsy path, otherwise the basename with
its extension stripped. -/
def extract_filename (file_path : Option PStr) : PStr :=
  if !pyTruthy file_path then ("NONE").data
  else
    match file_path with
    | some p => (splitext (osBasename p)).1
    | none => ("NONE").data

/-- combine_prompts: read the four components (a falsy context path reads
as the empty block), derive the two names, and concatenate the labelled
blocks into one prompt. -/
def combine_prompts (fs : Fs) (system_prompt_path : PStr)
    (var_a_path var_b_path : Option PStr) (task_prompt_path : PStr) :
    Except PStr (PStr × PStr × PStr) := do
  let system_prompt ← read_file_content fs system_prompt_path
  let var_a_content ←
    match var_a_path with
    | some p => if p.isEmpty then pure [] else read_file_content fs p
    | none => pure []
  let var_b_content ←
    match var_b_path with
    | some p => if p.isEmpty then pure [] else read_file_content fs p
    | none => pure []
  let task_prompt ← read_file_content fs task_prompt_path
  let var_a_name :=
    if pyTruthy var_a_path then extract_filename var_a_path else ("NONE").data
  let var_b_name :=
    if pyTruthy var_b_path then extract_filename var_b_path else ("NONE").data
  let combined :=
    system_prompt ++ ("\n\nVARIABLE A CONTEXT:\n").data ++ var_a_content
      ++ ("\n\nVARIABLE B CONTEXT:\n").data ++ var_b_content
      ++ ("\n\nTASK:\n").data ++ task_prompt
  return (combined, var_a_name, var_b_name)

/-! ## core/query_model.py -/

/-- An adapter behaviour: what adapter.query returns, or the exception it
raises, per prompt. -/
abbrev Adapter := PStr → Except PStr PStr

/-- The error taxonomy of query_model: the RuntimeError raised when no
adapter is set, against a propagated exception of the adapter itself. -/
inductive QueryError where
  | adapterNotConfigured (msg : PStr)
  | adapterRaised (msg : PStr)
deriving DecidableEq, Repr

/-- query_model: raise RuntimeError when model_adapter is None, otherwise
call adapter.query once.  The second component counts the outbound
provider requests made by the call. -/
def query_model (model_adapter : Option Adapter) (prompt : PStr) :
    Except QueryError PStr × Nat :=
  match model_adapter with
  | none =>
    (.error (.adapterNotConfigured
      ("No model adapter set. Call set_model_adapter() first.").data), 0)
  | some adapter =>
    match adapter prompt with
    | .ok response => (.ok response, 1)
    | .error e => (.error (.adapterRaised e), 1)

/-! ## core/save_response.py -/

/-- The sanitize closure of generate_output_filename: keep alphanumerics
and the two safe punctuation marks, replace every other character by an
underscore. -/
def sanitize (name : PStr) : PStr :=
  name.map (fun c => if pyIsAlnum c || c = '-' || c = '_' then c else '_')

/-- generate_output_filename: drop sanitized names equal to "NONE", join
the survivors with "-", append "-response.{extension}" (just
"response.{extension}" when nothing survives), and join onto the output
directory. -/
def generate_output_filename (output_dir var_a_name var_b_name : PStr)
    (extension : PStr) : PStr :=
  let safe_var_a := sanitize var_a_name
  let safe_var_b := sanitize var_b_name
  let parts :=
    (if safe_var_a ≠ ("NONE").data then [safe_var_a] else []) ++
    (if safe_var_b ≠ ("NONE").data then [safe_var_b] else [])
  let filename :=
    if parts = [] then ("response.").data ++ extension
    else List.intercalate ['-'] parts ++ ("-response.").data ++ extension
  osJoin output_dir filename

/-- The k-th path the collision loop of save_response tries: the base path
itself, then the base with "_k" spliced in before its extension. -/
def candidate (base : PStr) : Nat → PStr
  | 0 => base
  | n + 1 => (splitext base).1 ++ '_' :: natDigits (n + 1) ++ (splitext base).2

/-- The while-loop of save_response searching for a free path, with the
iteration count made explicit as fuel; candidate indices are tried in
increasing order from k. -/
def saveLoop (fs : Fs) (base : PStr) : Nat → Nat → Nat
  | 0, k => k
  | fuel + 1, k =>
    if fsExists fs (candidate base k) then saveLoop fs base fuel (k + 1)
    else k

/-- The result of save_response: the path written and the filesystem after
the write. -/
structure SaveResult where
  path : PStr
  fs : Fs
deriving Repr

/-- save_response: compute the base output path, walk the collision loop
to the first free candidate, and write the content there verbatim.  A fuel
of one more than the filesystem size is enough for the loop (proved
below); directory creation is a no-op in the model. -/
def save_response (fs : Fs) (content : PStr)
    (output_dir var_a_name var_b_name : PStr) (extension : PStr) :
    SaveResult :=
  let base := generate_output_filename output_dir var_a_name var_b_name extension
  let k := saveLoop fs base (fs.length + 1) 0
  let output_path := candidate base k
  ⟨output_path, (output_path, content) :: fs⟩

/-! ## main.py -/

/-- process_combination: assemble the prompt, query the model, save the
response; any exception from the three stages is caught and turned into
the None result, the filesystem is then left as it was. -/
def process_combination (model_adapter : Option Adapter) (fs : Fs)
    (system_prompt_path task_prompt_path : PStr)
    (var_a_path var_b_path : Option PStr) (output_dir : PStr) :
    Option PStr × Fs :=
  match combine_prompts fs system_prompt_path var_a_path var_b_path
      task_prompt_path with
  | .error _ => (none, fs)
  | .ok (current_prompt, var_a_name, var_b_name) =>
    match (query_model model_adapter current_prompt).1 with
    | .error _ => (none, fs)
    | .ok response =>
      let saved := save_response fs response output_dir var_a_name var_b_name
        ("txt").data
      (some saved.path, saved.fs)

/-- What one run of main reports: the process exit status, how many
combinations were attempted and completed, the saved paths in order, and
the final filesystem. -/
structure RunReport where
  exitCode : Nat
  attempted : Nat
  completed : Nat
  outputs : List PStr
  fs : Fs

/-- One pass of a main-loop body over a list of (var_a_path, var_b_path)
pairs: each iteration invokes process_combination once (one attempt) and
counts a completion exactly when it returned a path. -/
def runPairs (model_adapter : Option Adapter) (fs : Fs)
    (system_prompt_path task_prompt_path : PStr) (output_dir : PStr) :
    List (Option PStr × Option PStr) → Nat × Nat × List PStr × Fs
  | [] => (0, 0, [], fs)
  | (pa, pb) :: rest =>
    let r := process_combination model_adapter fs system_prompt_path
      task_prompt_path pa pb output_dir
    let rec' := runPairs model_adapter r.2 system_prompt_path
      task_prompt_path output_dir rest
    match r.1 with
    | some p => (rec'.1 + 1, rec'.2.1 + 1, p :: rec'.2.2.1, rec'.2.2.2)
    | none => (rec'.1 + 1, rec'.2.1, rec'.2.2.1, rec'.2.2.2)

/-- The branching part of main after enumeration: both sets empty runs the
single sentinel combination, one empty set iterates the other alone, and
the general case runs the full cartesian product, outer loop over A. -/
def mainLoop (model_adapter : Option Adapter) (fs : Fs)
    (system_prompt_path task_prompt_path output_dir : PStr)
    (var_a_files var_b_files : List PStr) : RunReport :=
  let pairs :=
    if var_a_files.isEmpty && var_b_files.isEmpty then
      [(none, none)]
    else if var_a_files.isEmpty then
      var_b_files.map (fun b => (none, some b))
    else if var_b_files.isEmpty then
      var_a_files.map (fun a => (some a, none))
    else
      var_a_files.flatMap (fun a => var_b_files.map (fun b => (some a, some b)))
  let r := runPairs model_adapter fs system_prompt_path task_prompt_path
    output_dir pairs
  ⟨0, r.1, r.2.1, r.2.2.1, r.2.2.2⟩

/-- main after configuration loading: enumerate the two context
directories with get_context_files, and on its ValueError print and exit
with status 1 before any combination is attempted; otherwise run the
branching loop.  (The three fallback branches of mainLoop are embedded as
written, although a successful get_context_files never hands them empty
lists.) -/
def runMain (model_adapter : Option Adapter) (fs : Fs)
    (system_prompt_path task_prompt_path output_dir : PStr)
    (var_a_dir : PStr) (entriesA : List DirEntry)
    (var_b_dir : PStr) (entriesB : List DirEntry) : RunReport :=
  match get_context_files var_a_dir entriesA var_b_dir entriesB with
  | .error _ => ⟨1, 0, 0, [], fs⟩
  | .ok (var_a_files, var_b_files) =>
    mainLoop model_adapter fs system_prompt_path task_prompt_path output_dir
      var_a_files var_b_files

/-! ## Spec-side definitions, used to state the claims -/

/-- Is an Except value the success branch? -/
def isOkE {ε α : Type} : Except ε α → Bool
  | .ok _ => true
  | .error _ => false

/-- Modelled from the spec: the literal prompt template of §6, the four
blocks and their fixed labels in order. -/
def specAssembledPrompt (sys a b task : PStr) : PStr :=
  sys ++ ("\n\nVARIABLE A CONTEXT:\n").data ++ a
    ++ ("\n\nVARIABLE B CONTEXT:\n").data ++ b
    ++ ("\n\nTASK:\n").data ++ task

/-- Modelled from the spec: the filename derivation of §4.5 — sanitize
both names, drop those equal to "NONE", join the survivors with "-" and
append "-response.{extension}", or "response.{extension}" when nothing
survives. -/
def specOutputFilename (nameA nameB extension : PStr) : PStr :=
  let survivors :=
    ([sanitize nameA, sanitize nameB]).filter (fun s => s ≠ ("NONE").data)
  if survivors.isEmpty then ("response.").data ++ extension
  else List.intercalate ['-'] survivors ++ ("-response.").data ++ extension

/-- The trimmed context block an optional context path contributes in
combine_prompts: the empty block for an absent (falsy) path, the stripped
file text for a present readable path, and none when the present path is
unreadable. -/
def contextContent (fs : Fs) : Option PStr → Option PStr
  | none => some []
  | some p => if p.isEmpty then some [] else (fsLookup fs p).map pyStrip

/-- A character of the class [A-Za-z0-9_-] of the spec's filename
pattern. -/
def isWordChar (c : Char) : Bool := c.isAlphanum || c = '-' || c = '_'

/-- The spec's output-filename pattern: the anchored regular expression
[A-Za-z0-9_-]+\.txt — a nonempty run of word characters followed by the
literal ".txt". -/
def matchesOutputPattern (s : PStr) : Bool :=
  decide (5 ≤ s.length) && (s.take (s.length - 4)).all isWordChar &&
    decide (s.drop (s.length - 4) = ('.' :: 't' :: 'x' :: 't' :: []))

/-- The numeric value of a decimal digit character. -/
def digitVal (c : Char) : Nat := c.toNat - 48

/-- The number a string of decimal digit characters denotes. -/
def digitsVal (l : PStr) : Nat := l.foldl (fun a c => a * 10 + digitVal c) 0

/-! ## C8: querying with no adapter bound -/

/-- C8: invoking the Model Client's complete operation before any adapter
has been bound fails with the distinguished adapter-not-configured
RuntimeError, and zero outbound provider requests are made. -/
theorem C8_adapter_not_configured (prompt : PStr) :
    query_model none prompt =
      (.error (.adapterNotConfigured
        ("No model adapter set. Call set_model_adapter() first.").data), 0) :=
  rfl

/-! ## C9: round trip of the written content -/

/-- C9: the content save_response persists, read back from the path it
returns, is the original completion text unchanged — the writing step
applies no transformation. -/
theorem C9_roundtrip (fs : Fs) (content od na nb ext : PStr) :
    fsLookup (save_response fs content od na nb ext).fs
      (save_response fs content od na nb ext).path = some content := by
  simp [save_response, fsLookup]

/-! ## C2: both context directories empty -/

/-- C2: with both context directories empty, the run does NOT attempt the
single sentinel combination the spec promises — get_context_files raises
ValueError first, main catches it and exits with status 1, zero
combinations attempted and the filesystem untouched.  The final conjunct
shows the intended (dead) fallback branch of main would indeed attempt
exactly one combination if it were ever reached with two empty lists. -/
theorem C2_empty_dirs_exit_one (ad : Option Adapter) (fs : Fs)
    (sysP taskP od dA dB : PStr) :
    (runMain ad fs sysP taskP od dA [] dB []).exitCode = 1 ∧
    (runMain ad fs sysP taskP od dA [] dB []).attempted = 0 ∧
    (runMain ad fs sysP taskP od dA [] dB []).fs = fs ∧
    (mainLoop ad fs sysP taskP od [] []).attempted = 1 := by
  refine ⟨?_, ?_, ?_, ?_⟩ <;>
    simp [runMain, get_context_files, get_txt_md_files, pySorted, mainLoop,
      runPairs]
  cases process_combination ad fs sysP taskP none none od with
  | mk o f => cases o <;> simp [runPairs]

/-! ## C1: enumeration of a directory with no matching files -/

/-- C1 counterexample: at a concrete context directory with no .txt/.md
file, the context enumeration get_context_files does not return an empty
sequence — it raises ValueError — so the claim as stated is false. -/
theorem C1_counterexample :
    get_context_files ("dA").data [] ("dB").data [(("b.txt").data, true)] =
      .error (("No .txt or .md files found in Variable A directory: dA").data) := by
  rfl

/-- C1 amended: for every context directory with no regular .txt/.md
file, the inner per-directory listing get_txt_md_files returns the empty
sequence without error, but get_context_files itself raises ValueError
whenever either directory's list comes out empty. -/
theorem C1_amended_strict_enumeration (dp : PStr) (es : List DirEntry)
    (h : ∀ e ∈ es, e.2 = false ∨ endsTxtMd (pyLower e.1) = false) :
    get_txt_md_files dp es = [] ∧
    (∀ dB esB, isOkE (get_context_files dp es dB esB) = false) ∧
    (∀ dA esA, isOkE (get_context_files dA esA dp es) = false) := by
  have hf : (es.filter (fun e => e.2 && endsTxtMd (pyLower e.1))) = [] := by
    rw [List.filter_eq_nil_iff]
    intro e he
    rcases h e he with h1 | h1 <;> simp [h1]
  have hg : get_txt_md_files dp es = [] := by
    simp [get_txt_md_files, hf, pySorted]
  refine ⟨hg, ?_, ?_⟩
  · intro dB esB
    simp [get_context_files, hg, isOkE]
  · intro dA esA
    simp only [get_context_files, hg]
    by_cases hA : (get_txt_md_files dA esA).isEmpty <;> simp [hA, isOkE]

/-- C1 amended, witnessed at a directory holding one PDF and one
subdirectory named like a text file: the listing is empty and
get_context_files fails. -/
theorem C1_amended_strict_enumeration_witness :
    (([((("doc.pdf").data : PStr), true), ((("notes.txt").data : PStr), false)]).all
        (fun e => !e.2 || !endsTxtMd (pyLower e.1)) = true) ∧
    get_txt_md_files ("dA").data
      [(("doc.pdf").data, true), (("notes.txt").data, false)] = [] ∧
    isOkE (get_context_files ("dA").data
      [(("doc.pdf").data, true), (("notes.txt").data, false)]
      ("dB").data [(("b.txt").data, true)]) = false :=
  ⟨by decide,
    (C1_amended_strict_enumeration _ _ (by decide)).1,
    (C1_amended_strict_enumeration _ _ (by decide)).2.1 _ _⟩

/-! ## C7: the filename derivation -/

/-- C7: the Response Writer's filename is exactly the spec's derivation —
sanitize each name, drop sanitized names equal to "NONE", join survivors
with "-" and append "-response.txt"; with both names "NONE" the filename
is exactly response.{extension}. -/
theorem C7_filename_derivation (od na nb ext : PStr) :
    generate_output_filename od na nb ext =
      osJoin od (specOutputFilename na nb ext) ∧
    (na = ("NONE").data → nb = ("NONE").data →
      generate_output_filename od na nb ext =
        osJoin od (("response.").data ++ ext)) := by
  constructor
  · unfold generate_output_filename specOutputFilename
    by_cases h1 : sanitize na = ("NONE").data <;>
      by_cases h2 : sanitize nb = ("NONE").data <;>
        simp [h1, h2, List.filter]
  · intro h1 h2
    subst h1; subst h2
    simp [generate_output_filename,
      show sanitize (("NONE").data) = ("NONE").data from rfl]

/-- C7 witnessed at the sentinel pair: with both names "NONE" the file is
exactly response.txt in the output directory. -/
theorem C7_filename_derivation_witness :
    generate_output_filename ("out").data (("NONE").data) (("NONE").data)
        (("txt").data) =
      osJoin ("out").data (("response.").data ++ ("txt").data) :=
  (C7_filename_derivation ("out").data (("NONE").data) (("NONE").data)
    (("txt").data)).2 rfl rfl

/-! ## C10: a real context file whose base name is the sentinel -/

/-- C10: a context file whose base name is exactly "NONE" (such as
NONE.txt) gets the sentinel as its derived name, and the Response Writer
drops it from the output filename exactly as when that axis is absent;
concretely, NONE.txt from set A paired with b.txt from set B yields the
base name b-response.txt, indistinguishable from the absent-A case. -/
theorem C10_sentinel_base_name (pa : PStr) (h1 : pa ≠ [])
    (h2 : (splitext (osBasename pa)).1 = ("NONE").data)
    (od nb ext : PStr) :
    extract_filename (some pa) = ("NONE").data ∧
    generate_output_filename od (extract_filename (some pa)) nb ext =
      generate_output_filename od (("NONE").data) nb ext ∧
    osBasename (generate_output_filename ("out").data
        (extract_filename (some (("ctxA/NONE.txt").data)))
        (extract_filename (some (("ctxB/b.txt").data))) (("txt").data)) =
      ("b-response.txt").data := by
  have hname : extract_filename (some pa) = ("NONE").data := by
    simp only [extract_filename, pyTruthy]
    rw [if_neg (by simpa [List.isEmpty_iff] using h1)]
    exact h2
  exact ⟨hname, by rw [hname], by rfl⟩

/-- C10 witnessed at the file ctxA/NONE.txt paired with the name b: both
hypotheses hold there and the derived name is the sentinel. -/
theorem C10_sentinel_base_name_witness :
    ((("ctxA/NONE.txt").data : PStr) ≠ [] ∧
      (splitext (osBasename (("ctxA/NONE.txt").data))).1 = ("NONE").data) ∧
    extract_filename (some (("ctxA/NONE.txt").data)) = ("NONE").data ∧
    generate_output_filename ("out").data
        (extract_filename (some (("ctxA/NONE.txt").data))) ("b").data
        ("txt").data =
      generate_output_filename ("out").data (("NONE").data) ("b").data
        ("txt").data :=
  ⟨⟨by decide, by decide⟩,
    (C10_sentinel_base_name _ (by decide) (by decide) ("out").data ("b").data
      ("txt").data).1,
    (C10_sentinel_base_name _ (by decide) (by decide) ("out").data ("b").data
      ("txt").data).2.1⟩

/-! ## C3: the assembled prompt -/

/-- Reduction of a successful bind in the Except monad. -/
theorem except_bind_ok {ε α β : Type} (a : α) (f : α → Except ε β) :
    (Except.ok a >>= f : Except ε β) = f a := rfl

/-- Reduction of pure in the Except monad. -/
theorem except_pure_eq {ε α : Type} (a : α) :
    (pure a : Except ε α) = .ok a := rfl

/-- What a successful contextContent tells about the optional path: it is
absent or empty (empty block), or present, nonempty and readable with the
block being the stripped text. -/
theorem contextContent_elim (fs : Fs) (po : Option PStr) (aC : PStr)
    (h : contextContent fs po = some aC) :
    (po = none ∧ aC = []) ∨
    (∃ p, po = some p ∧ p.isEmpty = true ∧ aC = []) ∨
    (∃ p, po = some p ∧ p.isEmpty = false ∧
      read_file_content fs p = .ok aC) := by
  match po with
  | none =>
    left
    simp only [contextContent, Option.some.injEq] at h
    exact ⟨rfl, h.symm⟩
  | some p =>
    by_cases hpe : p.isEmpty
    · right; left
      simp only [contextContent, hpe, if_true, Option.some.injEq] at h
      exact ⟨p, rfl, hpe, h.symm⟩
    · right; right
      refine ⟨p, rfl, by simpa using hpe, ?_⟩
      rcases hfp : fsLookup fs p with _ | c
      · simp [contextContent, hpe, hfp] at h
      · simp only [contextContent, hpe, hfp, Option.map_some',
          Option.some.injEq, Bool.false_eq_true, reduceIte] at h
        simp [read_file_content, hfp, h]

/-- The name computed in combine_prompts coincides with extract_filename,
whose falsy branch already yields the sentinel. -/
theorem truthy_name (po : Option PStr) :
    (if pyTruthy po then extract_filename po else ("NONE").data) =
      extract_filename po := by
  by_cases h : pyTruthy po
  · simp [h]
  · simp [h, extract_filename]

/-- C3: whenever the present files are readable, the assembled prompt is
exactly the trimmed system text, the two labelled (possibly empty) trimmed
context blocks and the trimmed task text in the spec's fixed template, and
an absent context path yields the name sentinel "NONE". -/
theorem C3_assembled_prompt (fs : Fs) (sysP taskP : PStr)
    (pa pb : Option PStr) (sysC taskC aC bC : PStr)
    (hs : fsLookup fs sysP = some sysC)
    (ht : fsLookup fs taskP = some taskC)
    (ha : contextContent fs pa = some aC)
    (hb : contextContent fs pb = some bC) :
    combine_prompts fs sysP pa pb taskP =
      .ok (specAssembledPrompt (pyStrip sysC) aC bC (pyStrip taskC),
        extract_filename pa, extract_filename pb) ∧
    (pa = none → extract_filename pa = ("NONE").data) ∧
    (pb = none → extract_filename pb = ("NONE").data) := by
  refine ⟨?_, fun h => by subst h; rfl, fun h => by subst h; rfl⟩
  have e1 : read_file_content fs sysP = .ok (pyStrip sysC) := by
    simp [read_file_content, hs]
  have e4 : read_file_content fs taskP = .ok (pyStrip taskC) := by
    simp [read_file_content, ht]
  rcases contextContent_elim fs pa aC ha with ⟨hpa, haC⟩ | ⟨p, hpa, hpe, haC⟩ |
      ⟨p, hpa, hpe, hra⟩ <;>
    rcases contextContent_elim fs pb bC hb with ⟨hpb, hbC⟩ | ⟨q, hpb, hqe, hbC⟩ |
        ⟨q, hpb, hqe, hrb⟩ <;>
      subst hpa <;> subst hpb <;>
      simp_all [combine_prompts, e1, e4, except_bind_ok, except_pure_eq,
        specAssembledPrompt, truthy_name, extract_filename, pyTruthy]

/-- C3 witnessed on a concrete filesystem: context A present and
readable, context B absent, both prompt files readable. -/
theorem C3_assembled_prompt_witness :
    fsLookup
        [(("sp").data, (" SYS ").data), (("tp").data, ("TASK!").data),
          (("ctxA/a1.txt").data, ("aaa\n").data)] ("sp").data =
      some ((" SYS ").data) ∧
    contextContent
        [(("sp").data, (" SYS ").data), (("tp").data, ("TASK!").data),
          (("ctxA/a1.txt").data, ("aaa\n").data)]
        (some (("ctxA/a1.txt").data)) = some (("aaa").data) ∧
    combine_prompts
        [(("sp").data, (" SYS ").data), (("tp").data, ("TASK!").data),
          (("ctxA/a1.txt").data, ("aaa\n").data)]
        ("sp").data (some (("ctxA/a1.txt").data)) none ("tp").data =
      .ok (specAssembledPrompt (pyStrip ((" SYS ").data)) ("aaa").data []
          (pyStrip (("TASK!").data)),
        extract_filename (some (("ctxA/a1.txt").data)), extract_filename none) :=
  ⟨by decide, by decide,
    (C3_assembled_prompt _ ("sp").data ("tp").data
      (some (("ctxA/a1.txt").data)) none (" SYS ").data ("TASK!").data
      ("aaa").data [] (by decide) (by decide) (by decide) (by decide)).1⟩

/-! ## C6: the full cartesian run -/

/-- Every iteration of a main-loop body attempts exactly one combination,
whatever the adapter or filesystem does, and completions never exceed
attempts. -/
theorem runPairs_counts (ad : Option Adapter) (sysP taskP od : PStr) :
    ∀ (pairs : List (Option PStr × Option PStr)) (fs : Fs),
      (runPairs ad fs sysP taskP od pairs).1 = pairs.length ∧
      (runPairs ad fs sysP taskP od pairs).2.1 ≤ pairs.length := by
  intro pairs
  induction pairs with
  | nil => intro fs; simp [runPairs]
  | cons hd tl ih =>
    intro fs
    rcases hd with ⟨pa, pb⟩
    rcases hpc : process_combination ad fs sysP taskP pa pb od with ⟨o, fs2⟩
    have h2 := ih fs2
    cases o <;>
      simp only [runPairs, hpc, List.length_cons] <;>
      omega

/-- The nested loops of the full-cartesian branch visit exactly
length A times length B pairs. -/
theorem length_cartesian_pairs (aF bF : List PStr) :
    (aF.flatMap (fun a => bF.map
      (fun b => ((some a : Option PStr), (some b : Option PStr))))).length =
      aF.length * bF.length := by
  induction aF with
  | nil => simp
  | cons a as ih => simp [ih, Nat.succ_mul, Nat.add_comm]

/-- C6: with both enumerated context sets non-empty of sizes m and n, the
run attempts exactly m * n combinations, completes at most that many, and
exits with status 0 — for EVERY adapter behaviour and filesystem, so an
error in assembling, querying or writing one combination never prevents
the remaining combinations from being attempted. -/
theorem C6_cartesian_attempts (ad : Option Adapter) (fs : Fs)
    (sysP taskP od dA dB : PStr) (esA esB : List DirEntry)
    (ha : get_txt_md_files dA esA ≠ []) (hb : get_txt_md_files dB esB ≠ []) :
    (runMain ad fs sysP taskP od dA esA dB esB).attempted =
      (get_txt_md_files dA esA).length * (get_txt_md_files dB esB).length ∧
    (runMain ad fs sysP taskP od dA esA dB esB).completed ≤
      (runMain ad fs sysP taskP od dA esA dB esB).attempted ∧
    (runMain ad fs sysP taskP od dA esA dB esB).exitCode = 0 := by
  have hA : (get_txt_md_files dA esA).isEmpty = false := by
    simpa [List.isEmpty_iff] using ha
  have hB : (get_txt_md_files dB esB).isEmpty = false := by
    simpa [List.isEmpty_iff] using hb
  have hrm : runMain ad fs sysP taskP od dA esA dB esB =
      mainLoop ad fs sysP taskP od (get_txt_md_files dA esA)
        (get_txt_md_files dB esB) := by
    simp [runMain, get_context_files, hA, hB]
  have hml : mainLoop ad fs sysP taskP od (get_txt_md_files dA esA)
        (get_txt_md_files dB esB) =
      ⟨0, (runPairs ad fs sysP taskP od ((get_txt_md_files dA esA).flatMap
            (fun a => (get_txt_md_files dB esB).map
              (fun b => (some a, some b))))).1,
        (runPairs ad fs sysP taskP od ((get_txt_md_files dA esA).flatMap
            (fun a => (get_txt_md_files dB esB).map
              (fun b => (some a, some b))))).2.1,
        (runPairs ad fs sysP taskP od ((get_txt_md_files dA esA).flatMap
            (fun a => (get_txt_md_files dB esB).map
              (fun b => (some a, some b))))).2.2.1,
        (runPairs ad fs sysP taskP od ((get_txt_md_files dA esA).flatMap
            (fun a => (get_txt_md_files dB esB).map
              (fun b => (some a, some b))))).2.2.2⟩ := by
    simp [mainLoop, hA, hB]
  have hc := runPairs_counts ad sysP taskP od
    ((get_txt_md_files dA esA).flatMap
      (fun a => (get_txt_md_files dB esB).map (fun b => (some a, some b)))) fs
  have hlen := length_cartesian_pairs (get_txt_md_files dA esA)
    (get_txt_md_files dB esB)
  rw [hrm, hml]
  exact ⟨by rw [hc.1, hlen], by simpa [hc.1] using hc.2, rfl⟩

/-- C6 witnessed with two A-files, one B-file, and the adapter absent (so
every query fails): both sets are non-empty and exactly 2 * 1 combinations
are attempted. -/
theorem C6_cartesian_attempts_witness :
    (get_txt_md_files ("dA").data
        [(("a1.txt").data, true), (("a2.md").data, true)] ≠ [] ∧
      get_txt_md_files ("dB").data [(("b1.txt").data, true)] ≠ []) ∧
    (runMain none [] ("sp").data ("tp").data ("out").data ("dA").data
        [(("a1.txt").data, true), (("a2.md").data, true)] ("dB").data
        [(("b1.txt").data, true)]).attempted =
      (get_txt_md_files ("dA").data
        [(("a1.txt").data, true), (("a2.md").data, true)]).length *
      (get_txt_md_files ("dB").data [(("b1.txt").data, true)]).length :=
  ⟨⟨by decide, by decide⟩,
    (C6_cartesian_attempts none [] ("sp").data ("tp").data ("out").data
      ("dA").data ("dB").data [(("a1.txt").data, true), (("a2.md").data, true)]
      [(("b1.txt").data, true)] (by decide) (by decide)).1⟩

/-! ## C4: the output-filename pattern and sanitize idempotence -/

/-- splitAtLast finds nothing exactly when the character is absent. -/
theorem splitAtLast_eq_none_iff (c : Char) (l : PStr) :
    splitAtLast c l = none ↔ c ∉ l := by
  induction l with
  | nil => simp [splitAtLast]
  | cons x xs ih =>
    simp only [splitAtLast, List.mem_cons]
    rcases h : splitAtLast c xs with _ | pr
    · rw [h] at ih
      have hx : c ∉ xs := ih.mp rfl
      by_cases hxc : x = c
      · subst hxc; simp
      · have hcx : ¬c = x := fun hh => hxc hh.symm
        simp [hxc, hcx, hx]
    · rw [h] at ih
      have hx : c ∈ xs := by
        by_contra hc
        exact Option.noConfusion (ih.mpr hc)
      simp [hx]

/-- splitAtLast at an occurrence followed by none further splits there. -/
theorem splitAtLast_append_cons (c : Char) (xs ys : PStr) (h : c ∉ ys) :
    splitAtLast c (xs ++ c :: ys) = some (xs, c :: ys) := by
  induction xs with
  | nil =>
    have hy : splitAtLast c ys = none := (splitAtLast_eq_none_iff c ys).mpr h
    simp [splitAtLast, hy]
  | cons x xs ih => simp [splitAtLast, ih]

/-- Joining a slash-free filename onto any directory leaves the filename
as the basename. -/
theorem osBasename_osJoin (d f : PStr) (hf : '/' ∉ f) :
    osBasename (osJoin d f) = f := by
  have hfz : splitAtLast '/' f = none := (splitAtLast_eq_none_iff _ _).mpr hf
  by_cases h1 : f.head? = some '/'
  · exfalso
    rcases f with _ | ⟨c, t⟩
    · exact Option.noConfusion h1
    · simp only [List.head?_cons, Option.some.injEq] at h1
      exact hf (h1 ▸ List.mem_cons_self c t)
  · by_cases h2 : d = []
    · simp [osJoin, h1, h2, osBasename, hfz]
    · by_cases h3 : d.getLast? = some '/'
      · obtain ⟨d2, rfl⟩ := List.getLast?_eq_some_iff.mp h3
        have : (d2 ++ ['/']) ++ f = d2 ++ '/' :: f := by simp
        simp [osJoin, h1, h2, h3, this, osBasename,
          splitAtLast_append_cons '/' d2 f hf]
      · simp [osJoin, h1, h2, h3, osBasename,
          splitAtLast_append_cons '/' d f hf]

/-- Sanitizing a name of ASCII characters yields only characters of the
class [A-Za-z0-9_-]. -/
theorem sanitize_all_wordChar (na : PStr) (h : ∀ c ∈ na, c.toNat < 128) :
    (sanitize na).all isWordChar = true := by
  rw [sanitize, List.all_eq_true]
  intro x hx
  rw [List.mem_map] at hx
  obtain ⟨c, hc, rfl⟩ := hx
  by_cases hk : (pyIsAlnum c || c = '-' || c = '_') = true
  · rw [if_pos hk]
    rcases Bool.or_eq_true _ _ |>.mp hk with hk1 | hk1
    · rcases Bool.or_eq_true _ _ |>.mp hk1 with hk2 | hk2
      · rcases Bool.or_eq_true _ _ |>.mp hk2 with hk3 | hk3
        · simp [isWordChar, hk3]
        · exfalso
          have hlt := h c hc
          simp only [Bool.and_eq_true, decide_eq_true_eq] at hk3
          omega
      · simp [isWordChar, hk2]
    · simp [isWordChar, hk1]
  · rw [if_neg hk]
    rfl

/-- Sanitization is idempotent: every character it keeps it keeps again,
and the underscore it substitutes is itself kept. -/
theorem sanitize_idem (m : PStr) : sanitize (sanitize m) = sanitize m := by
  simp only [sanitize, List.map_map]
  apply List.map_congr_left
  intro c _
  by_cases hk : (pyIsAlnum c || c = '-' || c = '_') = true
  · simp [Function.comp, hk]
  · simp [Function.comp, hk]

/-- No character of the word class is a slash. -/
theorem not_slash_of_wordChar (s : PStr) (h : s.all isWordChar = true) :
    '/' ∉ s := by
  intro hm
  have := List.all_eq_true.mp h _ hm
  exact Bool.noConfusion this

/-- A nonempty word-class stem followed by ".txt" matches the spec's
output pattern. -/
theorem matchesOutputPattern_stem (stem : PStr) (h1 : stem ≠ [])
    (h2 : stem.all isWordChar = true) :
    matchesOutputPattern (stem ++ ('.' :: 't' :: 'x' :: 't' :: [])) = true := by
  have hlen : (stem ++ ('.' :: 't' :: 'x' :: 't' :: [])).length =
      stem.length + 4 := by simp
  have hpos : 0 < stem.length := List.length_pos.mpr h1
  simp only [matchesOutputPattern, hlen, Bool.and_eq_true, decide_eq_true_eq]
  refine ⟨⟨by omega, ?_⟩, ?_⟩
  · rw [show stem.length + 4 - 4 = stem.length by omega,
      List.take_left stem ('.' :: 't' :: 'x' :: 't' :: [])]
    exact h2
  · rw [show stem.length + 4 - 4 = stem.length by omega,
      List.drop_left stem ('.' :: 't' :: 'x' :: 't' :: [])]

/-- C4 counterexample: the Latin-1 letter é is alphanumeric to Python's
sanitize, so the name "é" survives sanitization and the output base name
"é-response.txt" matches neither the ASCII pattern [A-Za-z0-9_-]+\.txt nor
the literal response.txt, refuting the claim as stated. -/
theorem C4_counterexample :
    ¬(matchesOutputPattern (osBasename (generate_output_filename ("out").data
          ['é'] (("NONE").data) (("txt").data))) = true ∨
      osBasename (generate_output_filename ("out").data ['é'] (("NONE").data)
        (("txt").data)) = ("response.txt").data) := by
  decide

/-- C4 amended: for names of ASCII characters the computed base name
matches [A-Za-z0-9_-]+\.txt or is exactly response.txt, and sanitization
is idempotent for all names whatsoever. -/
theorem C4_amended_ascii_pattern (od na nb : PStr)
    (hA : ∀ c ∈ na, c.toNat < 128) (hB : ∀ c ∈ nb, c.toNat < 128) :
    (matchesOutputPattern (osBasename
        (generate_output_filename od na nb (("txt").data))) = true ∨
      osBasename (generate_output_filename od na nb (("txt").data)) =
        ("response.txt").data) ∧
    (∀ m : PStr, sanitize (sanitize m) = sanitize m) := by
  refine ⟨?_, sanitize_idem⟩
  have hwa := sanitize_all_wordChar na hA
  have hwb := sanitize_all_wordChar nb hB
  by_cases h1 : sanitize na = ("NONE").data <;>
    by_cases h2 : sanitize nb = ("NONE").data
  · right
    simp only [generate_output_filename, h1, h2, ne_eq, not_true_eq_false,
      if_false, List.nil_append, reduceIte]
    exact osBasename_osJoin od _ (by decide)
  · left
    have hall : ((sanitize nb ++ ("-response").data)).all isWordChar = true := by
      rw [List.all_append, hwb]
      decide
    have hstem := matchesOutputPattern_stem _ (by simp) hall
    have hsl : '/' ∉ (sanitize nb ++ ("-response").data)
        ++ ('.' :: 't' :: 'x' :: 't' :: []) := by
      intro hm
      rcases List.mem_append.mp hm with hm1 | hm1
      · exact not_slash_of_wordChar _ hall hm1
      · exact absurd hm1 (by decide)
    have hfn : generate_output_filename od na nb (("txt").data) =
        osJoin od ((sanitize nb ++ ("-response").data)
          ++ ('.' :: 't' :: 'x' :: 't' :: [])) := by
      simp only [generate_output_filename, h1, h2, ne_eq, not_true_eq_false,
        if_false, reduceIte, not_false_eq_true, if_true, List.nil_append]
      congr 1
      simp [List.intercalate, List.intersperse, List.append_assoc]
    rw [hfn, osBasename_osJoin od _ hsl]
    exact hstem
  · left
    have hall : ((sanitize na ++ ("-response").data)).all isWordChar = true := by
      rw [List.all_append, hwa]
      decide
    have hstem := matchesOutputPattern_stem _ (by simp) hall
    have hsl : '/' ∉ (sanitize na ++ ("-response").data)
        ++ ('.' :: 't' :: 'x' :: 't' :: []) := by
      intro hm
      rcases List.mem_append.mp hm with hm1 | hm1
      · exact not_slash_of_wordChar _ hall hm1
      · exact absurd hm1 (by decide)
    have hfn : generate_output_filename od na nb (("txt").data) =
        osJoin od ((sanitize na ++ ("-response").data)
          ++ ('.' :: 't' :: 'x' :: 't' :: [])) := by
      simp only [generate_output_filename, h1, h2, ne_eq, not_true_eq_false,
        if_false, reduceIte, not_false_eq_true, if_true, List.append_nil]
      congr 1
      simp [List.intercalate, List.intersperse, List.append_assoc]
    rw [hfn, osBasename_osJoin od _ hsl]
    exact hstem
  · left
    have hall : ((sanitize na ++ '-' :: sanitize nb ++ ("-response").data)).all
        isWordChar = true := by
      rw [List.all_append, List.all_append, hwa, List.all_cons, hwb]
      decide
    have hstem := matchesOutputPattern_stem _ (by simp) hall
    have hsl : '/' ∉ (sanitize na ++ '-' :: sanitize nb ++ ("-response").data)
        ++ ('.' :: 't' :: 'x' :: 't' :: []) := by
      intro hm
      rcases List.mem_append.mp hm with hm1 | hm1
      · exact not_slash_of_wordChar _ hall hm1
      · exact absurd hm1 (by decide)
    have hfn : generate_output_filename od na nb (("txt").data) =
        osJoin od ((sanitize na ++ '-' :: sanitize nb ++ ("-response").data)
          ++ ('.' :: 't' :: 'x' :: 't' :: [])) := by
      simp only [generate_output_filename, h1, h2, ne_eq, not_false_eq_true,
        if_true]
      congr 1
      simp [List.intercalate, List.intersperse, List.append_assoc]
    rw [hfn, osBasename_osJoin od _ hsl]
    exact hstem

/-- C4 amended, witnessed at the spec's own example "a/b?c" (with the
other axis absent): both names are ASCII and the base name is the
sanitized a_b_c-response.txt, matching the pattern. -/
theorem C4_amended_ascii_pattern_witness :
    (∀ c ∈ (("a/b?c").data : PStr), c.toNat < 128) ∧
    (matchesOutputPattern (osBasename (generate_output_filename ("out").data
        ("a/b?c").data (("NONE").data) (("txt").data))) = true ∨
      osBasename (generate_output_filename ("out").data ("a/b?c").data
        (("NONE").data) (("txt").data)) = ("response.txt").data) ∧
    osBasename (generate_output_filename ("out").data ("a/b?c").data
      (("NONE").data) (("txt").data)) = ("a_b_c-response.txt").data :=
  ⟨by decide,
    (C4_amended_ascii_pattern ("out").data ("a/b?c").data (("NONE").data)
      (by decide) (by decide)).1,
    by decide⟩

/-! ## C5: collision-avoiding suffixes -/

/-- The fuel of natDigitsGo does not matter once it exceeds the
number. -/
theorem natDigitsGo_fuel (n : Nat) :
    ∀ f1 f2 acc, n < f1 → n < f2 →
      natDigitsGo f1 n acc = natDigitsGo f2 n acc := by
  induction n using Nat.strong_induction_on with
  | _ n ih =>
    intro f1 f2 acc h1 h2
    match f1, f2 with
    | g1 + 1, g2 + 1 =>
      by_cases h : n < 10
      · simp [natDigitsGo, h]
      · have hd : n / 10 < n := Nat.div_lt_self (by omega) (by omega)
        simp only [natDigitsGo, h, if_false, reduceIte]
        exact ih (n / 10) hd g1 g2 _ (by omega) (by omega)

/-- The accumulator of natDigitsGo only ever receives the rendered digits
in front of it. -/
theorem natDigitsGo_append (fuel : Nat) :
    ∀ n acc, n < fuel →
      natDigitsGo fuel n acc = natDigitsGo fuel n [] ++ acc := by
  induction fuel with
  | zero => intro n acc h; omega
  | succ f ih =>
    intro n acc h
    by_cases h10 : n < 10
    · simp [natDigitsGo, h10]
    · have hd : n / 10 < n := Nat.div_lt_self (by omega) (by omega)
      have hf : n / 10 < f := by omega
      simp only [natDigitsGo, h10, if_false, reduceIte]
      rw [ih (n / 10) _ hf, ih (n / 10) (digitChar (n % 10) :: []) hf]
      simp

/-- Rendering a one-digit number. -/
theorem natDigits_lt10 (n : Nat) (h : n < 10) :
    natDigits n = [digitChar n] := by
  simp [natDigits, natDigitsGo, h]

/-- Rendering a number of two or more digits ends with its last digit. -/
theorem natDigits_step (n : Nat) (h : ¬n < 10) :
    natDigits n = natDigits (n / 10) ++ [digitChar (n % 10)] := by
  have hd : n / 10 < n := Nat.div_lt_self (by omega) (by omega)
  rw [natDigits, natDigits]
  show natDigitsGo (n + 1) n [] = _
  rw [show natDigitsGo (n + 1) n [] =
      natDigitsGo n (n / 10) (digitChar (n % 10) :: []) by
    simp [natDigitsGo, h]]
  rw [natDigitsGo_fuel (n / 10) n (n / 10 + 1) _ (by omega) (by omega),
    natDigitsGo_append (n / 10 + 1) (n / 10) _ (by omega)]

/-- The digit characters carry their values. -/
theorem digitVal_digitChar (d : Nat) (h : d < 10) :
    digitVal (digitChar d) = d := by
  interval_cases d <;> rfl

/-- Appending one digit multiplies the denoted value by ten and adds the
digit. -/
theorem digitsVal_append (l : PStr) (c : Char) :
    digitsVal (l ++ [c]) = 10 * digitsVal l + digitVal c := by
  simp only [digitsVal, List.foldl_append, List.foldl_cons, List.foldl_nil]
  omega

/-- The decimal rendering denotes the number it came from. -/
theorem digitsVal_natDigits (n : Nat) : digitsVal (natDigits n) = n := by
  induction n using Nat.strong_induction_on with
  | _ n ih =>
    by_cases h : n < 10
    · rw [natDigits_lt10 n h]
      simp only [digitsVal, List.foldl_cons, List.foldl_nil, Nat.zero_mul,
        Nat.zero_add]
      exact digitVal_digitChar n h
    · rw [natDigits_step n h, digitsVal_append,
        ih (n / 10) (Nat.div_lt_self (by omega) (by omega)),
        digitVal_digitChar (n % 10) (by omega)]
      omega

/-- Decimal rendering is injective. -/
theorem natDigits_inj (m n : Nat) (h : natDigits m = natDigits n) : m = n := by
  have hm := digitsVal_natDigits m
  rw [h, digitsVal_natDigits] at hm
  omega

/-- Decimal renderings are never empty. -/
theorem natDigits_ne_nil (n : Nat) : natDigits n ≠ [] := by
  by_cases h : n < 10
  · rw [natDigits_lt10 n h]
    simp
  · rw [natDigits_step n h]
    simp

/-- What splitAtLast finds splits the list. -/
theorem splitAtLast_concat (c : Char) (l : PStr) :
    ∀ a b, splitAtLast c l = some (a, b) → l = a ++ b := by
  induction l with
  | nil => intro a b h; exact Option.noConfusion h
  | cons x xs ih =>
    intro a b h
    rw [splitAtLast] at h
    rcases hx : splitAtLast c xs with _ | pq
    · rw [hx] at h
      by_cases hxc : x = c
      · rw [if_pos hxc] at h
        obtain ⟨rfl, rfl⟩ := Prod.mk.injEq .. |>.mp (Option.some.injEq .. |>.mp h)
        rfl
      · rw [if_neg hxc] at h
        exact Option.noConfusion h
    · rw [hx] at h
      obtain ⟨rfl, rfl⟩ := Prod.mk.injEq .. |>.mp (Option.some.injEq .. |>.mp h)
      rw [List.cons_append, ← ih pq.1 pq.2 (by rw [hx])]

/-- The suffix splitAtLast returns starts with the sought character. -/
theorem splitAtLast_head (c : Char) (l : PStr) :
    ∀ a b, splitAtLast c l = some (a, b) → b.head? = some c := by
  induction l with
  | nil => intro a b h; exact Option.noConfusion h
  | cons x xs ih =>
    intro a b h
    rw [splitAtLast] at h
    rcases hx : splitAtLast c xs with _ | pq
    · rw [hx] at h
      by_cases hxc : x = c
      · rw [if_pos hxc] at h
        obtain ⟨rfl, rfl⟩ := Prod.mk.injEq .. |>.mp (Option.some.injEq .. |>.mp h)
        rw [List.head?_cons, hxc]
      · rw [if_neg hxc] at h
        exact Option.noConfusion h
    · rw [hx] at h
      obtain ⟨rfl, rfl⟩ := Prod.mk.injEq .. |>.mp (Option.some.injEq .. |>.mp h)
      exact ih pq.1 pq.2 (by rw [hx])

/-- The two components of splitext concatenate back to the path. -/
theorem splitext_concat (p : PStr) : (splitext p).1 ++ (splitext p).2 = p := by
  unfold splitext
  rcases hs : splitAtLast '/' p with _ | presuf
  · simp only
    rcases hd : splitAtLast '.' (p.dropWhile (fun c => c = '.')) with _ | stdx
    · simp
    · simp only
      have h2 := splitAtLast_concat '.' _ stdx.1 stdx.2 (by rw [hd])
      conv_rhs => rw [← List.takeWhile_append_dropWhile (p := fun c => c = '.')
        (l := p), h2]
      simp
  · rcases presuf with ⟨pre, suf⟩
    rcases suf with _ | ⟨s0, base⟩
    · simp only
      rcases hd : splitAtLast '.' (p.dropWhile (fun c => c = '.')) with _ | stdx
      · simp
      · simp only
        have h2 := splitAtLast_concat '.' _ stdx.1 stdx.2 (by rw [hd])
        conv_rhs => rw [← List.takeWhile_append_dropWhile (p := fun c => c = '.')
          (l := p), h2]
        simp
    · have hs0 : s0 = '/' := by
        have := splitAtLast_head '/' p pre (s0 :: base) hs
        rw [List.head?_cons] at this
        exact Option.some.injEq .. |>.mp this
      have hp : p = pre ++ s0 :: base := splitAtLast_concat '/' p pre _ hs
      simp only
      rcases hd : splitAtLast '.' (base.dropWhile (fun c => c = '.')) with _ | stdx
      · simp
      · simp only
        have h2 := splitAtLast_concat '.' _ stdx.1 stdx.2 (by rw [hd])
        conv_rhs => rw [hp, hs0]
        conv_rhs => rw [show base = base.takeWhile (fun c => c = '.') ++
          base.dropWhile (fun c => c = '.') from
            (List.takeWhile_append_dropWhile ..).symm, h2]
        simp

/-- Distinct loop indices give distinct candidate paths. -/
theorem candidate_injective (base : PStr) :
    ∀ m n, candidate base m = candidate base n → m = n := by
  have hsc := splitext_concat base
  have hb : base.length =
      (splitext base).1.length + (splitext base).2.length := by
    conv_lhs => rw [← hsc]
    simp
  intro m n h
  match m, n with
  | 0, 0 => rfl
  | 0, k + 1 =>
    exfalso
    have hlen := congrArg List.length h
    have hd : 0 < (natDigits (k + 1)).length :=
      List.length_pos.mpr (natDigits_ne_nil (k + 1))
    simp only [candidate, List.length_append, List.length_cons] at hlen
    omega
  | j + 1, 0 =>
    exfalso
    have hlen := congrArg List.length h
    have hd : 0 < (natDigits (j + 1)).length :=
      List.length_pos.mpr (natDigits_ne_nil (j + 1))
    simp only [candidate, List.length_append, List.length_cons] at hlen
    omega
  | j + 1, k + 1 =>
    simp only [candidate] at h
    have h2 := List.append_cancel_right h
    have h3 := List.append_cancel_left h2
    have h4 := List.cons.injEq .. |>.mp h3 |>.2
    rw [natDigits_inj (j + 1) (k + 1) h4]

/-- An existing path is among the filesystem's keys. -/
theorem fsExists_mem_keys (fs : Fs) (p : PStr) (h : fsExists fs p = true) :
    p ∈ fs.map Prod.fst := by
  induction fs with
  | nil => simp [fsExists, fsLookup] at h
  | cons hd tl ih =>
    rcases hd with ⟨q, c⟩
    by_cases hq : q = p
    · simp [hq]
    · simp only [fsExists, fsLookup, hq, if_false, reduceIte] at h
      exact List.mem_cons_of_mem _ (ih h)

/-- Pigeonhole for the collision loop: among the first length-plus-one
candidates, one is free. -/
theorem exists_free_candidate (fs : Fs) (base : PStr) :
    ∃ k, k ≤ fs.length ∧ fsExists fs (candidate base k) = false := by
  by_contra hc
  push_neg at hc
  have hall : ∀ k : Fin (fs.length + 1), candidate base k ∈ fs.map Prod.fst := by
    intro k
    apply fsExists_mem_keys
    have hne := hc k (Nat.lt_succ_iff.mp k.isLt)
    revert hne
    cases fsExists fs (candidate base k) <;> simp
  have hinj : Function.Injective
      (fun k : Fin (fs.length + 1) => candidate base k) := by
    intro a b hab
    exact Fin.ext (candidate_injective base a b hab)
  have hsub : Finset.univ.image
      (fun k : Fin (fs.length + 1) => candidate base k) ⊆
        (fs.map Prod.fst).toFinset := by
    intro x hx
    rw [Finset.mem_image] at hx
    obtain ⟨k, _, rfl⟩ := hx
    exact List.mem_toFinset.mpr (hall k)
  have h1 : (Finset.univ.image
      (fun k : Fin (fs.length + 1) => candidate base k)).card =
        fs.length + 1 := by
    rw [Finset.card_image_of_injective _ hinj, Finset.card_univ,
      Fintype.card_fin]
  have h2 := Finset.card_le_card hsub
  have h3 : ((fs.map Prod.fst).toFinset).card ≤ fs.length := by
    calc ((fs.map Prod.fst).toFinset).card
        ≤ (fs.map Prod.fst).length := List.toFinset_card_le _
      _ = fs.length := List.length_map _ _
  omega

/-- The while-loop of save_response stops at the first free candidate at
or after its start index, provided one exists within its fuel. -/
theorem saveLoop_first_free (fs : Fs) (base : PStr) :
    ∀ fuel k, (∃ j, j < fuel ∧ fsExists fs (candidate base (k + j)) = false) →
      fsExists fs (candidate base (saveLoop fs base fuel k)) = false ∧
      k ≤ saveLoop fs base fuel k ∧
      ∀ m, k ≤ m → m < saveLoop fs base fuel k →
        fsExists fs (candidate base m) = true := by
  intro fuel
  induction fuel with
  | zero =>
    intro k hk
    obtain ⟨j, hj, _⟩ := hk
    omega
  | succ f ih =>
    intro k hk
    obtain ⟨j, hj, hfree⟩ := hk
    by_cases hx : fsExists fs (candidate base k) = true
    · have hj0 : j ≠ 0 := by
        rintro rfl
        rw [Nat.add_zero] at hfree
        rw [hfree] at hx
        exact Bool.noConfusion hx
      have hrec := ih (k + 1) ⟨j - 1, by omega,
        by rw [show k + 1 + (j - 1) = k + j by omega]; exact hfree⟩
      rw [saveLoop, if_pos hx]
      refine ⟨hrec.1, by omega, ?_⟩
      intro m hm1 hm2
      by_cases hmk : m = k
      · rw [hmk]
        exact hx
      · exact hrec.2.2 m (by omega) hm2
    · rw [saveLoop, if_neg hx]
      refine ⟨by revert hx; cases fsExists fs (candidate base k) <;> simp,
        Nat.le_refl k, ?_⟩
      intro m hm1 hm2
      omega

/-- C5: save_response returns the first candidate path not already
present — the base path, else the base with _1, _2, ... spliced in before
the extension, first fit in increasing order — and concretely, saving the
same (alpha, beta) pair twice in one run yields the two distinct files
alpha-beta-response.txt and alpha-beta-response_1.txt. -/
theorem C5_collision_suffix_first_fit (fs : Fs) (content od na nb : PStr) :
    ((save_response fs content od na nb (("txt").data)).path =
        candidate (generate_output_filename od na nb (("txt").data))
          (saveLoop fs (generate_output_filename od na nb (("txt").data))
            (fs.length + 1) 0) ∧
      fsExists fs ((save_response fs content od na nb (("txt").data)).path) =
        false ∧
      (∀ m, m < saveLoop fs (generate_output_filename od na nb (("txt").data))
          (fs.length + 1) 0 →
        fsExists fs (candidate
          (generate_output_filename od na nb (("txt").data)) m) = true)) ∧
    (save_response [] (("R1").data) ("out").data ("alpha").data ("beta").data
        (("txt").data)).path = ("out/alpha-beta-response.txt").data ∧
    (save_response
        (save_response [] (("R1").data) ("out").data ("alpha").data
          ("beta").data (("txt").data)).fs
        (("R2").data) ("out").data ("alpha").data ("beta").data
        (("txt").data)).path = ("out/alpha-beta-response_1.txt").data := by
  refine ⟨?_, by decide, by decide⟩
  obtain ⟨k0, hk0, hfree⟩ := exists_free_candidate fs
    (generate_output_filename od na nb (("txt").data))
  have hspec := saveLoop_first_free fs
    (generate_output_filename od na nb (("txt").data)) (fs.length + 1) 0
    ⟨k0, by omega, by rw [Nat.zero_add]; exact hfree⟩
  exact ⟨rfl, hspec.1, fun m hm => hspec.2.2 m (Nat.zero_le m) hm⟩

end PromptChain
